import Mathlib

/-!
Shallow embedding of the Sonic polynomial-evaluation core of zero-chain:
`core/sonic/src/polynomials/s_eval.rs` (SyEval, SxEval and the Backend
listener implementation) and `core/sonic/src/helped/helper.rs` (Batch).
Scalars are modelled as an arbitrary decidable field `F`; group elements
of the two pairing groups are opaque type parameters.
-/

namespace ZeroChain

/-- Error taxonomy: the constructors of bellman's SynthesisError that the
spec's error-handling design names (DivisionByZero is the only one the
source snapshot actually returns). -/
inductive SynthesisError where
  | DivisionByZero
  | InvalidWireIndex
  | BoundExceeded
deriving DecidableEq, Repr

/-- Modelled from the spec: `Variable` of `cs/lc.rs` is not in the snapshot;
per the data model it is a tagged reference to one of the three wire
families A, B, C plus a 1-based index. -/
inductive Variable where
  | A (index : Nat)
  | B (index : Nat)
  | C (index : Nat)
deriving DecidableEq, Repr

/-- Modelled from the spec: `Coeff` of `cs/lc.rs` is not in the snapshot;
per the data model it is one of Zero, One, NegativeOne, Full(scalar). -/
inductive Coeff (F : Type) where
  | Zero
  | One
  | NegativeOne
  | Full (val : F)
deriving DecidableEq, Repr

/-- Turn an Except into an Option, forgetting the error. -/
def okOf {ε α : Type} : Except ε α → Option α
  | .ok a => some a
  | .error _ => none

section FieldDefs

variable {F : Type} [Field F] [DecidableEq F]

/-- Modelled from the spec: `eval_bivar_poly` of `utils` is not in the
snapshot; per the external-interface section it multiplicatively
distributes ascending powers across the sequence in index order, so entry
i is multiplied by first * base^i (a running accumulator that starts at
`first` and is multiplied by `base` at each step). -/
def eval_bivar_poly : List F → F → F → List F
  | [], _, _ => []
  | c :: rest, first, base => c * first :: eval_bivar_poly rest (first * base) base

/-- Modelled from the spec: `add_polynomials` of `utils` is not in the
snapshot; per the external-interface section it adds one sequence into
another element-wise. -/
def add_polynomials (target other : List F) : List F :=
  List.zipWith (fun a b => a + b) target other

/-- Rust's Field::inverse: none exactly on the additive identity. -/
def fieldInverse (x : F) : Option F :=
  if x = 0 then none else some x⁻¹

/-- State of SyEval (s_eval.rs lines 12-30). -/
structure SyEval (F : Type) where
  max_n : Nat
  current_q : Nat
  a : List F
  b : List F
  c : List F
  pos_coeffs : List F
  neg_coeffs : List F
deriving DecidableEq, Repr

/-- SyEval::new (s_eval.rs lines 33-63).  Note the source clones
`pos_coeffs` into `neg_coeffs` after the eval_bivar_poly distribution, then
resizes `pos_coeffs` (of length n) to n+q with zeros. -/
def SyEval.new (x : F) (n q : Nat) : Except SynthesisError (SyEval F) :=
  match fieldInverse x with
  | none => .error .DivisionByZero
  | some x_inv =>
    let a := eval_bivar_poly (List.replicate n (1 : F)) x_inv x_inv
    let b := eval_bivar_poly (List.replicate n (1 : F)) x x
    let c := eval_bivar_poly (List.replicate n (1 : F)) (x ^ (n + 1)) x
    let minus_one : F := -1
    let distributed := eval_bivar_poly (List.replicate n minus_one) (x ^ (n + 1)) x
    let neg_coeffs := distributed
    let pos_coeffs := distributed ++ List.replicate q (0 : F)
    .ok ⟨n, 0, a, b, c, pos_coeffs, neg_coeffs⟩

/-- State of SxEval (s_eval.rs lines 67-84). -/
structure SxEval (F : Type) where
  y : F
  yqn : F
  u : List F
  v : List F
  w : List F
deriving DecidableEq, Repr

/-- SxEval::new (s_eval.rs lines 87-118). -/
def SxEval.new (y : F) (n : Nat) : Except SynthesisError (SxEval F) :=
  let yqn := y ^ n
  let u := List.replicate n (0 : F)
  let v := List.replicate n (0 : F)
  let neg_one : F := -1
  let w0 := List.replicate n neg_one
  let neg_w0 := List.replicate n neg_one
  match fieldInverse y with
  | none => .error .DivisionByZero
  | some y_inv =>
    let w1 := eval_bivar_poly w0 y y
    let neg_w := eval_bivar_poly neg_w0 y_inv y_inv
    let w := add_polynomials w1 neg_w
    .ok ⟨y, yqn, u, v, w⟩

/-- neg_pos_poly (s_eval.rs lines 121-125): v.extend(w); return (u, v). -/
def neg_pos_poly (s : SxEval F) : List F × List F :=
  (s.u, s.v ++ s.w)

/-- Backend::new_linear_constraint (s_eval.rs lines 130-132). -/
def new_linear_constraint (s : SxEval F) : SxEval F :=
  { s with yqn := s.yqn * s.y }

/-- Apply f to the entry at position i, leaving everything else alone. -/
def modifyIdx {α : Type} : List α → Nat → (α → α) → List α
  | [], _, _ => []
  | c :: rest, 0, f => f c :: rest
  | c :: rest, i + 1, f => c :: modifyIdx rest i f

/-- Backend::insert_coefficient (s_eval.rs lines 135-162).  The source
indexes `self.u[index - 1]` on a usize with no check: index 0 underflows
and any index past the end is out of bounds, so both panic; the panic is
modelled as `none`. -/
def insert_coefficient (s : SxEval F) (var : Variable) (coeff : Coeff F) :
    Option (SxEval F) :=
  let app : F → F := fun uvw_val =>
    match coeff with
    | .Zero => uvw_val
    | .One => uvw_val + s.yqn
    | .NegativeOne => uvw_val - s.yqn
    | .Full val => uvw_val + val * s.yqn
  match var with
  | .A index =>
    if index = 0 ∨ s.u.length < index then none
    else some { s with u := modifyIdx s.u (index - 1) app }
  | .B index =>
    if index = 0 ∨ s.v.length < index then none
    else some { s with v := modifyIdx s.v (index - 1) app }
  | .C index =>
    if index = 0 ∨ s.w.length < index then none
    else some { s with w := modifyIdx s.w (index - 1) app }

/-- The additive contribution of a coefficient given the running power,
as the spec words it: Zero contributes nothing, One contributes yqn,
NegativeOne contributes minus yqn, Full(scalar) contributes scalar*yqn. -/
def coeffDelta : Coeff F → F → F
  | .Zero, _ => 0
  | .One, yqn => yqn
  | .NegativeOne, yqn => -yqn
  | .Full val, yqn => val * yqn

end FieldDefs

section BatchDefs

/-- SRS (srs.rs, external per the spec): sequences of group elements and a
degree bound d. -/
structure SRS (G1 G2 : Type) where
  d : Nat
  g_pos_x : List G1
  h_pos_x_alpha : List G2
  h_neg_x : List G2
deriving DecidableEq, Repr

/-- Prepared form of a target-group element (CurveAffine::prepare). -/
structure Prepared (G : Type) where
  el : G
deriving DecidableEq, Repr

/-- CurveAffine::prepare, a precomputation keeping the same data. -/
def prepare {G : Type} (g : G) : Prepared G := ⟨g⟩

/-- State of Batch (helper.rs lines 19-37). -/
structure Batch (G1 G2 F : Type) where
  alpha_x : List (G1 × F)
  alpha_x_precomp : Prepared G2
  alpha : List (G1 × F)
  alpha_precomp : Prepared G2
  neg_h : List (G1 × F)
  neg_h_precomp : Prepared G2
  neg_x_n_minus_d : List (G1 × F)
  neg_x_n_minus_d_precomp : Prepared G2
  value : F
  g : G1
deriving DecidableEq, Repr

/-- Batch::new (helper.rs lines 40-69).  The source returns Self, not a
Result: it indexes h_pos_x_alpha[1], h_pos_x_alpha[0], h_neg_x[0],
h_neg_x[srs.d - n] and g_pos_x[0] unchecked, and `srs.d - n` is a usize
subtraction that underflows when n exceeds d; every such failure is a
panic, modelled as `none`. -/
def Batch.new (G1 G2 F : Type) [Neg G2] [Zero F]
    (srs : SRS G1 G2) (n : Nat) : Option (Batch G1 G2 F) :=
  if srs.d < n then none
  else
    match srs.h_pos_x_alpha.get? 1, srs.h_pos_x_alpha.get? 0,
        srs.h_neg_x.get? 0, srs.h_neg_x.get? (srs.d - n),
        srs.g_pos_x.get? 0 with
    | some hxa1, some hxa0, some hn0, some hnd, some g0 =>
      some { alpha_x := []
             alpha_x_precomp := prepare hxa1
             alpha := []
             alpha_precomp := prepare hxa0
             neg_h := []
             neg_h_precomp := prepare (-hn0)
             neg_x_n_minus_d := []
             neg_x_n_minus_d_precomp := prepare (-hnd)
             value := 0
             g := g0 }
    | _, _, _, _, _ => none

/-- Batch::add_comm (helper.rs lines 71-73). -/
def add_comm {G1 G2 F : Type} (b : Batch G1 G2 F) (comm : G1) (random : F) :
    Batch G1 G2 F :=
  { b with neg_h := b.neg_h ++ [(comm, random)] }

/-- Batch::add_opening (helper.rs lines 75-79).  The source pushes
(opening, random) onto alpha_x and does nothing else; the `point` argument
is accepted but never used. -/
def add_opening {G1 G2 F : Type} (b : Batch G1 G2 F) (opening : G1)
    (random : F) (point : F) : Batch G1 G2 F :=
  { b with alpha_x := b.alpha_x ++ [(opening, random)] }

end BatchDefs

/-! ## Helper lemmas -/

section Lemmas

variable {F : Type} [Field F] [DecidableEq F]

theorem length_eval_bivar_poly (l : List F) (first base : F) :
    (eval_bivar_poly l first base).length = l.length := by
  induction l generalizing first with
  | nil => rfl
  | cons c rest ih => simp [eval_bivar_poly, ih]

theorem eval_bivar_poly_replicate (n : Nat) (c first base : F) :
    eval_bivar_poly (List.replicate n c) first base
      = (List.range n).map (fun i => c * (first * base ^ i)) := by
  induction n generalizing first with
  | zero => rfl
  | succ m ih =>
    rw [List.replicate_succ, List.range_succ_eq_map]
    simp only [eval_bivar_poly, ih, List.map_cons, List.map_map, pow_zero, mul_one]
    refine congrArg (fun t => c * first :: t) ?_
    refine List.map_congr_left ?_
    intro i _
    simp only [Function.comp_apply, pow_succ]
    ring

theorem length_modifyIdx {α : Type} (l : List α) (i : Nat) (f : α → α) :
    (modifyIdx l i f).length = l.length := by
  induction l generalizing i with
  | nil => rfl
  | cons c rest ih =>
    cases i with
    | zero => rfl
    | succ j => simp [modifyIdx, ih]

theorem getD_modifyIdx_self {α : Type} (l : List α) (i : Nat) (f : α → α)
    (d : α) (h : i < l.length) :
    (modifyIdx l i f).getD i d = f (l.getD i d) := by
  induction l generalizing i with
  | nil => simp at h
  | cons c rest ih =>
    cases i with
    | zero => rfl
    | succ j =>
      simp only [modifyIdx, List.getD_cons_succ]
      exact ih j (by simpa using h)

theorem getD_modifyIdx_ne {α : Type} (l : List α) (i j : Nat) (f : α → α)
    (d : α) (h : j ≠ i) :
    (modifyIdx l i f).getD j d = l.getD j d := by
  induction l generalizing i j with
  | nil => rfl
  | cons c rest ih =>
    cases i with
    | zero =>
      cases j with
      | zero => exact absurd rfl h
      | succ k => rfl
    | succ i2 =>
      cases j with
      | zero => rfl
      | succ k =>
        simp only [modifyIdx, List.getD_cons_succ]
        exact ih i2 k (fun hk => h (by rw [hk]))

theorem sxEval_new_eq_ok_iff (y : F) (n : Nat) (s : SxEval F) :
    SxEval.new y n = Except.ok s ↔
      y ≠ 0 ∧
      s = ⟨y, y ^ n, List.replicate n 0, List.replicate n 0,
        add_polynomials (eval_bivar_poly (List.replicate n (-1)) y y)
          (eval_bivar_poly (List.replicate n (-1)) y⁻¹ y⁻¹)⟩ := by
  by_cases hy : y = 0 <;>
    simp [SxEval.new, fieldInverse, hy, eq_comm]

theorem syEval_new_eq_ok_iff (x : F) (n q : Nat) (s : SyEval F) :
    SyEval.new x n q = Except.ok s ↔
      x ≠ 0 ∧
      s = ⟨n, 0,
        eval_bivar_poly (List.replicate n 1) x⁻¹ x⁻¹,
        eval_bivar_poly (List.replicate n 1) x x,
        eval_bivar_poly (List.replicate n 1) (x ^ (n + 1)) x,
        eval_bivar_poly (List.replicate n (-1)) (x ^ (n + 1)) x
          ++ List.replicate q 0,
        eval_bivar_poly (List.replicate n (-1)) (x ^ (n + 1)) x⟩ := by
  by_cases hx : x = 0 <;>
    simp [SyEval.new, fieldInverse, hx, eq_comm]

theorem iterate_new_linear_constraint_y (s : SxEval F) (k : Nat) :
    (new_linear_constraint^[k] s).y = s.y := by
  induction k with
  | zero => rfl
  | succ m ih => rw [Function.iterate_succ_apply', new_linear_constraint, ih]

theorem iterate_new_linear_constraint_yqn (s : SxEval F) (k : Nat) :
    (new_linear_constraint^[k] s).yqn = s.yqn * s.y ^ k := by
  induction k with
  | zero => simp
  | succ m ih =>
    rw [Function.iterate_succ_apply', new_linear_constraint]
    simp only [ih, iterate_new_linear_constraint_y]
    ring

end Lemmas

/-! ## Claim theorems -/

instance fact_prime_5 : Fact (Nat.Prime 5) := ⟨by norm_num⟩

section Claims

variable {F : Type} [Field F] [DecidableEq F]

/-- C1: the claim says an addTerm/insert_coefficient call whose 1-based
index lies outside [1, n] fails with an InvalidWireIndex condition.  The
source instead indexes unchecked (usize underflow at index 0, out of
bounds past n), i.e. it panics — and its return type is unit, so it cannot
return an error at all.  This theorem evaluates the embedded code at the
failing inputs: with n = 2, both index 3 and index 0 panic (`none`). -/
theorem claim1_insert_coefficient_oob_panics :
    (okOf (SxEval.new (2 : ZMod 5) 2)).isSome = true ∧
    Option.bind (okOf (SxEval.new (2 : ZMod 5) 2))
      (fun s => insert_coefficient s (Variable.A 3) Coeff.One) = none ∧
    Option.bind (okOf (SxEval.new (2 : ZMod 5) 2))
      (fun s => insert_coefficient s (Variable.A 0) Coeff.One) = none := by
  refine ⟨rfl, ?_, ?_⟩ <;> rfl

/-- C2: in an SxEval built by new(y, n) (which requires y nonzero), the
running power yqn equals y^n before any new_linear_constraint call (k = 0)
and y^(n+k) exactly after k new_linear_constraint calls. -/
theorem claim2_yqn_power_accumulation (y : F) (n k : Nat) (s : SxEval F)
    (h : SxEval.new y n = Except.ok s) :
    (new_linear_constraint^[k] s).yqn = y ^ (n + k) := by
  rw [sxEval_new_eq_ok_iff] at h
  obtain ⟨hy, rfl⟩ := h
  rw [iterate_new_linear_constraint_yqn]
  simp [pow_add]

/-- Witness for C2 at y = 2 in ZMod 5, n = 2, k = 3: yqn becomes 2^5. -/
theorem claim2_yqn_power_accumulation_witness :
    (new_linear_constraint^[3]
      (⟨2, (2 : ZMod 5) ^ 2, List.replicate 2 0, List.replicate 2 0,
        add_polynomials (eval_bivar_poly (List.replicate 2 (-1)) 2 2)
          (eval_bivar_poly (List.replicate 2 (-1)) (2 : ZMod 5)⁻¹
            (2 : ZMod 5)⁻¹)⟩ : SxEval (ZMod 5))).yqn = (2 : ZMod 5) ^ (2 + 3) :=
  claim2_yqn_power_accumulation 2 2 3 _ (by rfl)

/-- C4: neg_pos_poly returns (u, v ++ w): the first component is the
accumulated negative-side sequence u unmodified, and when v and w each
have length n the second component has length 2n, v's entries followed by
w's entries in index order. -/
theorem claim4_neg_pos_poly (s : SxEval F) (n : Nat)
    (hu : s.u.length = n) (hv : s.v.length = n) (hw : s.w.length = n) :
    neg_pos_poly s = (s.u, s.v ++ s.w) ∧
    (neg_pos_poly s).1 = s.u ∧ (neg_pos_poly s).2.length = 2 * n := by
  refine ⟨rfl, rfl, ?_⟩
  simp only [neg_pos_poly, List.length_append, hv, hw]
  omega

/-- Witness for C4 on a concrete state with n = 2. -/
theorem claim4_neg_pos_poly_witness :
    neg_pos_poly (⟨2, 4, [1, 2], [3, 4], [0, 1]⟩ : SxEval (ZMod 5))
      = ([1, 2], [3, 4, 0, 1]) ∧
    (neg_pos_poly (⟨2, 4, [1, 2], [3, 4], [0, 1]⟩ : SxEval (ZMod 5))).2.length
      = 2 * 2 := by
  have h := claim4_neg_pos_poly (⟨2, 4, [1, 2], [3, 4], [0, 1]⟩ : SxEval (ZMod 5))
    2 rfl rfl rfl
  exact ⟨h.1, h.2.2⟩

/-- C7: SxEval::new(y, n) succeeds exactly when y is nonzero; on success
yqn = y^n and u, v are each the all-zero sequence of length n; when y is
zero it fails with DivisionByZero. -/
theorem claim7_sxeval_new (y : F) (n : Nat) :
    (y = 0 →
      SxEval.new y n = Except.error SynthesisError.DivisionByZero) ∧
    (y ≠ 0 → ∃ s : SxEval F, SxEval.new y n = Except.ok s ∧
      s.yqn = y ^ n ∧ s.u = List.replicate n 0 ∧ s.v = List.replicate n 0 ∧
      s.u.length = n ∧ s.v.length = n) := by
  constructor
  · intro hy
    simp [SxEval.new, fieldInverse, hy]
  · intro hy
    exact ⟨_, (sxEval_new_eq_ok_iff y n _).mpr ⟨hy, rfl⟩, rfl, rfl, rfl,
      List.length_replicate n 0, List.length_replicate n 0⟩

/-- Witness for C7 at n = 3: y = 0 gives DivisionByZero, y = 2 succeeds. -/
theorem claim7_sxeval_new_witness :
    SxEval.new (0 : ZMod 5) 3 = Except.error SynthesisError.DivisionByZero ∧
    (okOf (SxEval.new (2 : ZMod 5) 3)).isSome = true := by
  refine ⟨(claim7_sxeval_new 0 3).1 rfl, ?_⟩
  obtain ⟨s, hs, -⟩ := (claim7_sxeval_new (2 : ZMod 5) 3).2 (by decide)
  rw [hs]
  rfl

/-- C3: insert_coefficient with an in-range 1-based index i selects
u[i-1] for family A, v[i-1] for family B, w[i-1] for family C, and updates
that entry additively: Zero leaves it unchanged, One adds yqn, NegativeOne
subtracts yqn, Full(scalar) adds scalar times yqn. -/
theorem claim3_insert_coefficient_updates (s : SxEval F) (i : Nat)
    (coeff : Coeff F) (hi : 1 ≤ i) :
    (i ≤ s.u.length →
      Option.map (fun s2 => s2.u.getD (i - 1) 0)
          (insert_coefficient s (Variable.A i) coeff)
        = some (s.u.getD (i - 1) 0 + coeffDelta coeff s.yqn)) ∧
    (i ≤ s.v.length →
      Option.map (fun s2 => s2.v.getD (i - 1) 0)
          (insert_coefficient s (Variable.B i) coeff)
        = some (s.v.getD (i - 1) 0 + coeffDelta coeff s.yqn)) ∧
    (i ≤ s.w.length →
      Option.map (fun s2 => s2.w.getD (i - 1) 0)
          (insert_coefficient s (Variable.C i) coeff)
        = some (s.w.getD (i - 1) 0 + coeffDelta coeff s.yqn)) := by
  refine ⟨?_, ?_, ?_⟩ <;> intro hle
  · have hcond : ¬(i = 0 ∨ s.u.length < i) := by omega
    simp only [insert_coefficient]
    rw [if_neg hcond]
    simp only [Option.map_some', Option.some.injEq]
    rw [getD_modifyIdx_self _ _ _ _ (by omega)]
    cases coeff <;> simp [coeffDelta, sub_eq_add_neg]
  · have hcond : ¬(i = 0 ∨ s.v.length < i) := by omega
    simp only [insert_coefficient]
    rw [if_neg hcond]
    simp only [Option.map_some', Option.some.injEq]
    rw [getD_modifyIdx_self _ _ _ _ (by omega)]
    cases coeff <;> simp [coeffDelta, sub_eq_add_neg]
  · have hcond : ¬(i = 0 ∨ s.w.length < i) := by omega
    simp only [insert_coefficient]
    rw [if_neg hcond]
    simp only [Option.map_some', Option.some.injEq]
    rw [getD_modifyIdx_self _ _ _ _ (by omega)]
    cases coeff <;> simp [coeffDelta, sub_eq_add_neg]

/-- Witness for C3: family A, index 2, coefficient Full(3) on a concrete
state with yqn = 4 in ZMod 5: the entry goes from 2 to 2 + 3*4 = 4. -/
theorem claim3_insert_coefficient_updates_witness :
    Option.map (fun s2 => s2.u.getD (2 - 1) 0)
      (insert_coefficient (⟨2, 4, [1, 2], [3, 4], [0, 1]⟩ : SxEval (ZMod 5))
        (Variable.A 2) (Coeff.Full 3))
      = some ((⟨2, 4, [1, 2], [3, 4], [0, 1]⟩ : SxEval (ZMod 5)).u.getD (2 - 1) 0
        + coeffDelta (Coeff.Full 3)
            (⟨2, 4, [1, 2], [3, 4], [0, 1]⟩ : SxEval (ZMod 5)).yqn) :=
  (claim3_insert_coefficient_updates
    (⟨2, 4, [1, 2], [3, 4], [0, 1]⟩ : SxEval (ZMod 5)) 2 (Coeff.Full 3)
    (by decide)).1 (by decide)

/-- C8: SyEval::new(x, n, q) succeeds exactly when x is nonzero, with the
sequences a, b, c each of length exactly n; when x is zero it fails with
DivisionByZero. -/
theorem claim8_syeval_new (x : F) (n q : Nat) (hn : 1 ≤ n) :
    (x = 0 →
      SyEval.new (F := F) x n q = Except.error SynthesisError.DivisionByZero) ∧
    (x ≠ 0 → ∃ s : SyEval F, SyEval.new x n q = Except.ok s ∧
      s.a.length = n ∧ s.b.length = n ∧ s.c.length = n) := by
  constructor
  · intro hx
    simp [SyEval.new, fieldInverse, hx]
  · intro hx
    refine ⟨_, (syEval_new_eq_ok_iff x n q _).mpr ⟨hx, rfl⟩, ?_, ?_, ?_⟩ <;>
      simp [length_eval_bivar_poly]

/-- Witness for C8 at n = 1, q = 0: x = 0 gives DivisionByZero, x = 2
succeeds. -/
theorem claim8_syeval_new_witness :
    SyEval.new (0 : ZMod 5) 1 0 = Except.error SynthesisError.DivisionByZero ∧
    (okOf (SyEval.new (2 : ZMod 5) 1 0)).isSome = true := by
  refine ⟨(claim8_syeval_new 0 1 0 (by decide)).1 rfl, ?_⟩
  obtain ⟨s, hs, -⟩ := (claim8_syeval_new (2 : ZMod 5) 1 0 (by decide)).2 (by decide)
  rw [hs]
  rfl

/-- C9 counterexample: the claim says neg_coeffs is the clone taken before
the powers of x^(n+1) are distributed, so each entry would be -1.  In the
source the clone is taken after the distribution: at x = 2, n = 1, q = 0
over ZMod 5 the single entry is -(2^2) = 1, not -1 = 4. -/
theorem claim9_neg_coeffs_counterexample :
    Option.map SyEval.neg_coeffs (okOf (SyEval.new (2 : ZMod 5) 1 0))
      ≠ some (List.replicate 1 (-1 : ZMod 5)) ∧
    Option.map SyEval.neg_coeffs (okOf (SyEval.new (2 : ZMod 5) 1 0))
      = some [-(2 : ZMod 5) ^ 2] := by
  constructor
  · decide
  · decide

/-- C9 amended: neg_coeffs is the clone of the -1-seeded length-n sequence
taken after the powers of x^(n+1) are distributed (entry i equals
-(x^(n+1+i))), and pos_coeffs is that same distributed sequence padded
with zeros to length n+q. -/
theorem claim9_neg_coeffs_amended (x : F) (n q : Nat) (s : SyEval F)
    (h : SyEval.new x n q = Except.ok s) :
    s.neg_coeffs = (List.range n).map (fun i => -(x ^ (n + 1 + i))) ∧
    s.pos_coeffs = s.neg_coeffs ++ List.replicate q 0 := by
  rw [syEval_new_eq_ok_iff] at h
  obtain ⟨hx, rfl⟩ := h
  constructor
  · show eval_bivar_poly (List.replicate n (-1)) (x ^ (n + 1)) x = _
    rw [eval_bivar_poly_replicate]
    refine List.map_congr_left ?_
    intro i _
    rw [pow_add]
    ring
  · rfl

/-- Witness for C9 amended at x = 2, n = 1, q = 1 over ZMod 5. -/
theorem claim9_neg_coeffs_amended_witness :
    (⟨1, 0, eval_bivar_poly (List.replicate 1 1) (2 : ZMod 5)⁻¹ (2 : ZMod 5)⁻¹,
      eval_bivar_poly (List.replicate 1 1) 2 2,
      eval_bivar_poly (List.replicate 1 1) ((2 : ZMod 5) ^ 2) 2,
      eval_bivar_poly (List.replicate 1 (-1)) ((2 : ZMod 5) ^ 2) 2
        ++ List.replicate 1 0,
      eval_bivar_poly (List.replicate 1 (-1)) ((2 : ZMod 5) ^ 2) 2⟩
      : SyEval (ZMod 5)).neg_coeffs
      = (List.range 1).map (fun i => -((2 : ZMod 5) ^ (1 + 1 + i))) :=
  (claim9_neg_coeffs_amended 2 1 1 _ (by rfl)).1

/-- C10: frame effects.  new_linear_constraint changes only yqn (y, u, v,
w are untouched), and insert_coefficient with an in-range index changes at
most the single entry selected by the family and index: the other two
sequences, y, yqn, the sequence length and every other entry of the
selected sequence are unchanged. -/
theorem claim10_listener_frame (s : SxEval F) (i : Nat) (coeff : Coeff F)
    (hi : 1 ≤ i) :
    ((new_linear_constraint s).y = s.y ∧ (new_linear_constraint s).u = s.u ∧
      (new_linear_constraint s).v = s.v ∧ (new_linear_constraint s).w = s.w) ∧
    (i ≤ s.u.length →
      ∀ s2, insert_coefficient s (Variable.A i) coeff = some s2 →
        s2.y = s.y ∧ s2.yqn = s.yqn ∧ s2.v = s.v ∧ s2.w = s.w ∧
        s2.u.length = s.u.length ∧
        ∀ j, j ≠ i - 1 → s2.u.getD j 0 = s.u.getD j 0) ∧
    (i ≤ s.v.length →
      ∀ s2, insert_coefficient s (Variable.B i) coeff = some s2 →
        s2.y = s.y ∧ s2.yqn = s.yqn ∧ s2.u = s.u ∧ s2.w = s.w ∧
        s2.v.length = s.v.length ∧
        ∀ j, j ≠ i - 1 → s2.v.getD j 0 = s.v.getD j 0) ∧
    (i ≤ s.w.length →
      ∀ s2, insert_coefficient s (Variable.C i) coeff = some s2 →
        s2.y = s.y ∧ s2.yqn = s.yqn ∧ s2.u = s.u ∧ s2.v = s.v ∧
        s2.w.length = s.w.length ∧
        ∀ j, j ≠ i - 1 → s2.w.getD j 0 = s.w.getD j 0) := by
  refine ⟨⟨rfl, rfl, rfl, rfl⟩, ?_, ?_, ?_⟩
  · intro hle s2 h
    have hcond : ¬(i = 0 ∨ s.u.length < i) := by omega
    simp only [insert_coefficient, if_neg hcond, Option.some.injEq] at h
    subst h
    exact ⟨rfl, rfl, rfl, rfl, length_modifyIdx s.u (i - 1) _,
      fun j hj => getD_modifyIdx_ne s.u (i - 1) j _ 0 hj⟩
  · intro hle s2 h
    have hcond : ¬(i = 0 ∨ s.v.length < i) := by omega
    simp only [insert_coefficient, if_neg hcond, Option.some.injEq] at h
    subst h
    exact ⟨rfl, rfl, rfl, rfl, length_modifyIdx s.v (i - 1) _,
      fun j hj => getD_modifyIdx_ne s.v (i - 1) j _ 0 hj⟩
  · intro hle s2 h
    have hcond : ¬(i = 0 ∨ s.w.length < i) := by omega
    simp only [insert_coefficient, if_neg hcond, Option.some.injEq] at h
    subst h
    exact ⟨rfl, rfl, rfl, rfl, length_modifyIdx s.w (i - 1) _,
      fun j hj => getD_modifyIdx_ne s.w (i - 1) j _ 0 hj⟩

/-- Witness for C10: new_linear_constraint leaves u alone and
insert_coefficient on family A, index 1 leaves v alone, on a concrete
state over ZMod 5. -/
theorem claim10_listener_frame_witness :
    (new_linear_constraint (⟨2, 4, [1, 2], [3, 4], [0, 1]⟩ : SxEval (ZMod 5))).u
      = [1, 2] ∧
    (⟨2, 4, [0, 2], [3, 4], [0, 1]⟩ : SxEval (ZMod 5)).v
      = (⟨2, 4, [1, 2], [3, 4], [0, 1]⟩ : SxEval (ZMod 5)).v := by
  have h := claim10_listener_frame
    (⟨2, 4, [1, 2], [3, 4], [0, 1]⟩ : SxEval (ZMod 5)) 1 Coeff.One (by decide)
  exact ⟨h.1.2.1, (h.2.1 (by decide) _ (by decide)).2.2.1⟩

/-- C5: the claim says Batch::new(srs, n) with n greater than the SRS
degree bound d fails with BoundExceeded.  The source returns Self, not a
Result, and computes srs.d - n (usize underflow when n exceeds d) and then
indexes h_neg_x unchecked, so it panics instead (`none` here); with n
within the bound it succeeds.  Concrete SRS: d = 1, n = 2 versus n = 1. -/
theorem claim5_batch_new_bound_panics :
    Batch.new Int Int (ZMod 5)
      ⟨1, [(10 : Int)], [(20 : Int), 21], [(30 : Int), 31]⟩ 2 = none ∧
    (Batch.new Int Int (ZMod 5)
      ⟨1, [(10 : Int)], [(20 : Int), 21], [(30 : Int), 31]⟩ 1).isSome = true :=
  ⟨rfl, rfl⟩

/-- C6: the claim says add_opening folds the evaluation point into the
running scalar value.  In the source the point argument is not used at
all: the result is independent of it, the running value is unchanged and
only (opening, randomizer) is appended to the alpha_x accumulator. -/
theorem claim6_add_opening_ignores_point {G1 G2 FF : Type}
    (b : Batch G1 G2 FF) (opening : G1) (random point point2 : FF) :
    add_opening b opening random point = add_opening b opening random point2 ∧
    (add_opening b opening random point).value = b.value ∧
    (add_opening b opening random point).alpha_x
      = b.alpha_x ++ [(opening, random)] :=
  ⟨rfl, rfl, rfl⟩

end Claims

end ZeroChain
